import Mathlib

/-!
# Verification of the CPT viewer core (parsers, Robertson classifier, chart viewport)

Shallow embedding, translated from the JavaScript sources:
* `src/js/gef-parser.js`        — Parser A (GEF text format)
* `src/unnamed/part_004`        — Parser B (BRO XML, fixed 25-column layout)
* `src/unnamed/part_003`        — Robertson classifier / layer merging / distribution
* `src/unnamed/part_002`        — CptChart renderer viewport state

Numbers are modelled as exact rationals (`ℚ`): the JS engine uses binary
doubles, but every constant of the program (thresholds, 0.2, 1.12, 1.3, …)
is carried here as the exact rational the source text denotes.  JS `null`
and `undefined` are modelled as an inner and an outer `Option` layer on row
fields.  DOM access (XML tree walking) is out of the embedded scope: the
Parser B functions below start from the text/separators that the DOM layer
hands to `_parseData`.
-/

/- `Rat.add`, `Rat.sub`, `Rat.mul` and `Rat.inv` are `@[irreducible]` in the
library, which blocks the elaborator's evaluation of `decide` proofs on
concrete rationals; the kernel is unaffected.  Restore the default
transparency for this file so concrete runs of the embedded functions can
be checked by `decide`. -/
attribute [local semireducible] Rat.add Rat.sub Rat.mul Rat.inv

/-! ## JS-style string primitives (structural, kernel-reducible) -/

/-- JS whitespace (the ASCII part relevant to these files). -/
def isWsChar (c : Char) : Bool :=
  c = ' ' || c = '\t' || c = '\n' || c = '\r' || c = '\x0b' || c = '\x0c'

/-- `\w` of the header regex: `[A-Za-z0-9_]`. -/
def isWordChar (c : Char) : Bool :=
  ('a' ≤ c && c ≤ 'z') || ('A' ≤ c && c ≤ 'Z') || ('0' ≤ c && c ≤ '9') || c = '_'

def isDigitChar (c : Char) : Bool := '0' ≤ c && c ≤ '9'

/-- `String.prototype.trim` on the character list. -/
def trimL (cs : List Char) : List Char :=
  ((cs.dropWhile isWsChar).reverse.dropWhile isWsChar).reverse

/-- JS `s.trim()`. -/
def trimS (s : String) : String := ⟨trimL s.data⟩

/-- ASCII upper-casing, as `toUpperCase` acts on the `\w+` keywords. -/
def upperS (s : String) : String := ⟨s.data.map Char.toUpper⟩

/-- JS `s.startsWith(p)` for the one-character markers used by the parser. -/
def startsWithChar (s : String) (c : Char) : Bool :=
  match s.data with
  | [] => false
  | d :: _ => d = c

/-- `text.replace(/\r\n/g, '\n').replace(/\r/g, '\n')`. -/
def normalizeNl : List Char → List Char
  | [] => []
  | '\r' :: '\n' :: rest => '\n' :: normalizeNl rest
  | '\r' :: rest => '\n' :: normalizeNl rest
  | c :: rest => c :: normalizeNl rest

/-- Fuel-driven worker for `splitOnL`; the fuel is the input length, and every
step consumes at least one character, so the `0` branch is unreachable. -/
def splitOnGo (sep : List Char) : Nat → List Char → List Char → List (List Char)
  | 0, cs, acc => [acc.reverse ++ cs]
  | _ + 1, [], acc => [acc.reverse]
  | fuel + 1, c :: rest, acc =>
    if sep.isPrefixOf (c :: rest) then
      acc.reverse :: splitOnGo sep fuel (List.drop (sep.length - 1) rest) []
    else
      splitOnGo sep fuel rest (c :: acc)

/-- JS `s.split(sep)` for a non-empty literal separator string. -/
def splitOnL (sep : List Char) (cs : List Char) : List (List Char) :=
  if sep.isEmpty then [cs] else splitOnGo sep cs.length cs []

/-- JS `s.split(sep)` on strings. -/
def splitOnS (s : String) (sep : String) : List String :=
  (splitOnL sep.data s.data).map fun cs => ⟨cs⟩

/-- JS `line.split(/\s+/)`: split on maximal whitespace runs.  Fuel-driven
like `splitOnGo`; every step consumes at least one character. -/
def splitWsGo : Nat → List Char → List Char → List (List Char)
  | 0, cs, acc => [acc.reverse ++ cs]
  | _ + 1, [], acc => [acc.reverse]
  | fuel + 1, c :: rest, acc =>
    if isWsChar c then acc.reverse :: splitWsGo fuel (rest.dropWhile isWsChar) []
    else splitWsGo fuel rest (c :: acc)

def splitWsS (s : String) : List String :=
  (splitWsGo s.data.length s.data []).map fun cs => ⟨cs⟩

/-! ## JS numeric token parsing

`parseFloatJS` models `parseFloat`: skip leading whitespace, optional sign,
a decimal mantissa (digits, optional fraction), an optional well-formed
exponent, ignoring any trailing garbage; no parsable prefix gives `none`
(JS `NaN`).  Non-finite results (`Infinity`) are collapsed to `none` as
well — no claim touches them, and every value the program stores is finite.
`parseIntJS` models `parseInt(s, 10)`. -/

def digitsVal (ds : List Char) : Nat :=
  ds.foldl (fun acc c => acc * 10 + (c.toNat - '0'.toNat)) 0

def parseFloatJS (s : String) : Option ℚ :=
  let cs := s.data.dropWhile isWsChar
  let (sgn, cs) : ℚ × List Char :=
    match cs with
    | '-' :: r => (-1, r)
    | '+' :: r => (1, r)
    | _ => (1, cs)
  let ip := cs.takeWhile isDigitChar
  let cs1 := cs.dropWhile isDigitChar
  let (fp, cs2) : List Char × List Char :=
    match cs1 with
    | '.' :: r => (r.takeWhile isDigitChar, r.dropWhile isDigitChar)
    | _ => ([], cs1)
  if ip.isEmpty && fp.isEmpty then none
  else
    let mant : ℚ := (digitsVal ip : ℚ) + (digitsVal fp : ℚ) / ((10 : ℚ) ^ fp.length)
    let exp : ℤ :=
      match cs2 with
      | 'e' :: r | 'E' :: r =>
        match r with
        | '-' :: d =>
          let ds := d.takeWhile isDigitChar
          if ds.isEmpty then 0 else -(digitsVal ds : ℤ)
        | '+' :: d =>
          let ds := d.takeWhile isDigitChar
          if ds.isEmpty then 0 else (digitsVal ds : ℤ)
        | d =>
          let ds := d.takeWhile isDigitChar
          if ds.isEmpty then 0 else (digitsVal ds : ℤ)
      | _ => 0
    some (sgn * mant * (10 : ℚ) ^ exp)

def parseIntJS (s : String) : Option ℤ :=
  let cs := s.data.dropWhile isWsChar
  let (sgn, cs) : ℤ × List Char :=
    match cs with
    | '-' :: r => (-1, r)
    | '+' :: r => (1, r)
    | _ => (1, cs)
  let ds := cs.takeWhile isDigitChar
  if ds.isEmpty then none else some (sgn * (digitsVal ds : ℤ))

/-! ## Shared data model

A row is a JS object holding per-column measurements: an association list
from column key to value.  `lookup k = none` models a missing property
(JS `undefined`), `lookup k = some none` models an explicit `null`.
Writes prepend, so the later write shadows the earlier one, like JS
property assignment. -/

abbrev Row := List (String × Option ℚ)

/-- JS `row[k]` where both `undefined` and `null` collapse to "no value". -/
def jsField (r : Row) (k : String) : Option ℚ := (r.lookup k).join

/-- Canonical column descriptor, the superset of the fields either parser
puts on its column objects (missing JS fields are defaulted). -/
structure Column where
  index : Option Nat
  key : String
  label : String
  unit : String
  type : Option ℤ
  voidValue : Option (Option ℚ)
  computed : Bool
deriving DecidableEq, Repr

def mkColumn (key label unit : String) : Column :=
  ⟨none, key, label, unit, none, none, false⟩

/-! ## Robertson classifier (src/unnamed/part_003, lines 209–396) -/

structure SoilZone where
  zone : Nat
  name : String
  color : String
deriving DecidableEq, Repr

def ROBERTSON_ZONES : List SoilZone :=
  [⟨1, "Gevoelig fijnkorrelig", "#00BCD4"⟩,
   ⟨2, "Organisch / veen", "#795548"⟩,
   ⟨3, "Klei", "#4CAF50"⟩,
   ⟨4, "Silt mengsels", "#8BC34A"⟩,
   ⟨5, "Zand mengsels", "#FFC107"⟩,
   ⟨6, "Zand", "#FF9800"⟩,
   ⟨7, "Grof zand / grind", "#FF5722"⟩,
   ⟨8, "Zeer vast zand/klei", "#F44336"⟩,
   ⟨9, "Zeer vast fijnkorrelig", "#9C27B0"⟩]

/-- `ROBERTSON_ZONES[i]` (always in range at the call sites). -/
def RZ (i : Nat) : SoilZone := ROBERTSON_ZONES.getD i ⟨0, "", ""⟩

/-- `Robertson.classify(qc, rf)`; `none` models the JS `null` result, and a
`none` argument models a missing (`null`/`undefined`) input. -/
def classify (qc rf : Option ℚ) : Option SoilZone :=
  match qc, rf with
  | some q, some r =>
    if q ≤ 0 ∨ r < 0 then none
    else if 25 < q then
      if r < 1 then some (RZ 6) else some (RZ 7)
    else if 10 < q then
      if r < 1/2 then some (RZ 6)
      else if r < 3/2 then some (RZ 5)
      else if r < 3 then some (RZ 4)
      else some (RZ 7)
    else if 5 < q then
      if r < 1 then some (RZ 5)
      else if r < 2 then some (RZ 4)
      else if r < 4 then some (RZ 3)
      else if r < 6 then some (RZ 2)
      else some (RZ 8)
    else if 2 < q then
      if r < 1 then some (RZ 4)
      else if r < 5/2 then some (RZ 3)
      else if r < 5 then some (RZ 2)
      else if r < 8 then some (RZ 1)
      else some (RZ 0)
    else if 1/2 < q then
      if r < 3/2 then some (RZ 3)
      else if r < 4 then some (RZ 2)
      else if r < 8 then some (RZ 1)
      else some (RZ 0)
    else
      if r < 5 then some (RZ 2)
      else if r < 10 then some (RZ 1)
      else some (RZ 0)
  | _, _ => none

/-- `ClassifiedPoint`: `{ depth, zone }`. -/
structure CPoint where
  depth : ℚ
  zone : Option SoilZone
deriving DecidableEq, Repr

/-- `Robertson.classifyDataset(data)`.  The `Math.abs(null) = 0` and raw
`row.length` fall-backs in the mapped branch are unreachable for kept rows
but translated as JS evaluates them (`Number(null) = 0`). -/
def emittedDepth (r : Row) : ℚ :=
  match r.lookup "depth" with
  | some (some v) => |v|
  | some none => 0
  | none =>
    match r.lookup "length" with
    | some (some v) => v
    | _ => 0

def keepRow (r : Row) : Bool :=
  match r.lookup "depth" with
  | some v => v.isSome
  | none => (r.lookup "length").join.isSome

def classifyDataset (rows : List Row) : List CPoint :=
  (rows.filter keepRow).map fun r =>
    ⟨emittedDepth r, classify (jsField r "qc") (jsField r "rf")⟩

/-- `Layer`: `{ startDepth, endDepth, zone }`. -/
structure Layer where
  startDepth : ℚ
  endDepth : ℚ
  zone : SoilZone
deriving DecidableEq, Repr

/-- The JS stable sort comparator `(a, b) => a.depth - b.depth`. -/
def byDepth (p q : ℚ × SoilZone) : Prop := p.1 ≤ q.1

instance : DecidableRel byDepth := fun p q => inferInstanceAs (Decidable (p.1 ≤ q.1))
instance : IsTotal (ℚ × SoilZone) byDepth := ⟨fun p q => le_total p.1 q.1⟩
instance : IsTrans (ℚ × SoilZone) byDepth := ⟨fun _ _ _ => le_trans⟩

/-- First pass of `mergeLayers`: coalesce consecutive same-zone points
(compared on the `zone` number, as `valid[i].zone.zone === current.zone.zone`). -/
def buildLayersGo (cur : Layer) : List (ℚ × SoilZone) → List Layer
  | [] => [cur]
  | (d, z) :: rest =>
    if z.zone = cur.zone.zone then
      buildLayersGo ⟨cur.startDepth, d, cur.zone⟩ rest
    else
      cur :: buildLayersGo ⟨d, d, z⟩ rest

/-- Second pass: a layer thinner than `minThickness` is absorbed by extending
the last retained layer's `endDepth`; `cur` is that last retained layer. -/
def absorbGo (minThickness : ℚ) (cur : Layer) : List Layer → List Layer
  | [] => [cur]
  | l :: rest =>
    if l.endDepth - l.startDepth < minThickness then
      absorbGo minThickness ⟨cur.startDepth, l.endDepth, cur.zone⟩ rest
    else
      cur :: absorbGo minThickness l rest

/-- `Robertson.mergeLayers(classifications, minThickness)`. -/
def mergeLayers (classifications : List CPoint) (minThickness : ℚ) : List Layer :=
  let valid := classifications.filterMap fun c => c.zone.map fun z => (c.depth, z)
  match List.insertionSort byDepth valid with
  | [] => []
  | (d, z) :: rest =>
    let layers := buildLayersGo ⟨d, d, z⟩ rest
    if 0 < minThickness ∧ 1 < layers.length then
      match layers with
      | [] => []
      | first :: ls => absorbGo minThickness first ls
    else layers

structure DistEntry where
  zone : SoilZone
  thickness : ℚ
  percentage : ℚ
deriving DecidableEq, Repr

/-- The JS `totals` dictionary, read back as a total function with default 0. -/
def addTotal (f : Nat → ℚ) (z : Nat) (t : ℚ) : Nat → ℚ :=
  fun w => if w = z then f w + t else f w

/-- One iteration of the accumulation loop of `computeDistribution`:
entries with non-positive thickness are skipped, otherwise the layer's
thickness is added to its zone's total and to the grand total. -/
def distStep (acc : (Nat → ℚ) × ℚ) (l : Layer) : (Nat → ℚ) × ℚ :=
  let t := l.endDepth - l.startDepth
  if t ≤ 0 then acc else (addTotal acc.1 l.zone.zone t, acc.2 + t)

/-- The accumulation loop of `computeDistribution`: per-zone thickness totals
and the grand total. -/
def distTotals (layers : List Layer) : (Nat → ℚ) × ℚ :=
  layers.foldl distStep (fun _ => 0, 0)

/-- The JS descending comparator `(a, b) => b.percentage - a.percentage`. -/
def byPercDesc (a b : DistEntry) : Prop := b.percentage ≤ a.percentage

instance : DecidableRel byPercDesc :=
  fun a b => inferInstanceAs (Decidable (b.percentage ≤ a.percentage))
instance : IsTotal DistEntry byPercDesc := ⟨fun a b => le_total b.percentage a.percentage⟩
instance : IsTrans DistEntry byPercDesc := ⟨fun _ _ _ h h' => le_trans h' h⟩

/-- `Robertson.computeDistribution(layers)`. -/
def computeDistribution (layers : List Layer) : List DistEntry :=
  if layers.isEmpty then []
  else
    let totals := (distTotals layers).1
    let totalThickness := (distTotals layers).2
    if totalThickness = 0 then []
    else
      List.insertionSort byPercDesc
        ((ROBERTSON_ZONES.map fun z =>
            ⟨z, totals z.zone, totals z.zone / totalThickness * 100⟩).filter
          fun d => decide (0 < d.percentage))

/-! ## Parser A: GefParser (src/js/gef-parser.js) -/

/-- `GEF_COLUMN_TYPES`: the fixed code → key/label/unit table. -/
def GEF_COLUMN_TYPES : List (ℤ × String × String × String) :=
  [(1, "length", "Sondeerlengte", "m"),
   (2, "qc", "Conusweerstand", "MPa"),
   (3, "fs", "Plaatselijke wrijving", "MPa"),
   (4, "rf", "Wrijvingsgetal", "%"),
   (5, "u1", "Waterspanning u1", "MPa"),
   (6, "u2", "Waterspanning u2", "MPa"),
   (7, "u3", "Waterspanning u3", "MPa"),
   (8, "inclination", "Inclinatie resultant", "graden"),
   (9, "incl_ns", "Inclinatie N-Z", "graden"),
   (10, "incl_ew", "Inclinatie O-W", "graden"),
   (11, "depth", "Diepte", "m NAP"),
   (12, "time", "Tijd", "s"),
   (13, "corrected_qc", "Gecorr. conusweerstand", "MPa"),
   (14, "net_qc", "Netto conusweerstand", "MPa"),
   (15, "pore_ratio", "Poriënratio", "-"),
   (20, "speed", "Sondeersnelheid", "mm/s"),
   (21, "temp", "Temperatuur", "°C"),
   (23, "electric_cond", "Elektrische geleidbaarheid", "S/m"),
   (39, "friction_total", "Totale wrijving", "kN")]

/-- A registered `#COLUMNINFO` slot (`columns[colIndex] = {unit, name, type}`);
`type` is `none` when the 4th field is missing or unparsable (JS `null`/`NaN`). -/
structure GefRawCol where
  unit : String
  name : String
  type : Option ℤ
deriving DecidableEq, Repr

/-- The mutable header object threaded through `_parseHeaderLine`.
`fields` collects the generic `header[keyword] = value` writes (later writes
shadow earlier ones via front insertion); the `COLUMNSEPARATOR`,
`RECORDSEPARATOR` and `COLUMNVOID` branches are split out, as the JS code
stores a string/dictionary under those keys and never reads them generically.
The raw `_columns`/`_rawColumns` bookkeeping fields are never read by the
parser and are not carried. -/
structure GefHeader where
  fields : List (String × String)
  columnSeparator : Option String
  recordSeparator : Option String
  columnVoid : List (ℤ × Option ℚ)
deriving DecidableEq, Repr

def emptyGefHeader : GefHeader := ⟨[], none, none, []⟩

/-- Sparse-array write `columns[i] = v`, growing with holes as JS does.
Negative/`NaN` indices set non-index properties that the `for i < length`
loop of `_buildColumnMap` never visits, so they are dropped. -/
def setSlot (l : List (Option GefRawCol)) (i : Nat) (v : GefRawCol) :
    List (Option GefRawCol) :=
  match l, i with
  | [], 0 => [some v]
  | [], n + 1 => none :: setSlot [] n v
  | _ :: xs, 0 => some v :: xs
  | x :: xs, n + 1 => x :: setSlot xs n v

/-- The regex `^#(\w+)\s*=\s*(.*)` plus `match[2].trim()`: returns the raw
keyword and the trimmed value. -/
def matchHeaderLine (line : String) : Option (String × String) :=
  match line.data with
  | '#' :: rest =>
    let word := rest.takeWhile isWordChar
    if word.isEmpty then none
    else
      match (rest.drop word.length).dropWhile isWsChar with
      | '=' :: val => some (⟨word⟩, ⟨trimL val⟩)
      | _ => none
  | _ => none

/-- `GefParser._parseHeaderLine` (keyword already upper-cased). -/
def gefParseHeaderLine (st : GefHeader × List (Option GefRawCol))
    (keyword value : String) : GefHeader × List (Option GefRawCol) :=
  let (hdr, cols) := st
  if keyword = "COLUMNINFO" then
    let parts := (splitOnS value ",").map trimS
    if 3 ≤ parts.length then
      let colIndex := (parseIntJS (parts.getD 0 "")).map (· - 1)
      let unit := parts.getD 1 ""
      let colName := parts.getD 2 ""
      let colType := if 4 ≤ parts.length then parseIntJS (parts.getD 3 "") else none
      match colIndex with
      | some i => if 0 ≤ i then (hdr, setSlot cols i.toNat ⟨unit, colName, colType⟩) else (hdr, cols)
      | none => (hdr, cols)
    else (hdr, cols)
  else if keyword = "COLUMNSEPARATOR" then
    ({ hdr with columnSeparator := some value }, cols)
  else if keyword = "RECORDSEPARATOR" then
    ({ hdr with recordSeparator := some value }, cols)
  else if keyword = "COLUMNVOID" then
    let parts := (splitOnS value ",").map trimS
    if 2 ≤ parts.length then
      match parseIntJS (parts.getD 0 "") with
      | some i => ({ hdr with columnVoid := (i - 1, parseFloatJS (parts.getD 1 "")) :: hdr.columnVoid }, cols)
      | none => (hdr, cols)
    else (hdr, cols)
  else if (upperS "COLUMN").data.isPrefixOf keyword.data then
    (hdr, cols)
  else
    ({ hdr with fields := (keyword, value) :: hdr.fields }, cols)

/-- Header terminator test (on the trimmed line). -/
def isEOH (line : String) : Bool :=
  trimS line = "#EOH=" || trimS line = "#EOH"

/-- One header-loop iteration body for a non-terminator line. -/
def gefHeaderStep (st : GefHeader × List (Option GefRawCol)) (rawLine : String) :
    GefHeader × List (Option GefRawCol) :=
  match matchHeaderLine (trimS rawLine) with
  | none => st
  | some (kw, value) => gefParseHeaderLine st (upperS kw) value

/-- The header scan of `GefParser.parse`: consume lines until the first
terminator; returns the state, whether a terminator was found, and the
remaining lines (the JS code records `dataStartIndex` instead and later
iterates from it — same thing). -/
def gefScan (st : GefHeader × List (Option GefRawCol)) :
    List String → (GefHeader × List (Option GefRawCol)) × Bool × List String
  | [] => (st, false, [])
  | l :: ls =>
    if isEOH l then (st, true, ls)
    else gefScan (gefHeaderStep st l) ls

/-- `GefParser._buildColumnMap`. -/
def gefBuildColumnMap (cols : List (Option GefRawCol)) (hdr : GefHeader) : List Column :=
  (cols.enum.filterMap fun (i, c) =>
    c.map fun col =>
      let typeInfo : Option (String × String × String) :=
        match col.type with
        | none => none
        | some 0 => none
        | some t => (GEF_COLUMN_TYPES.lookup t)
      { index := some i,
        key := match typeInfo with
          | some ti => ti.1
          | none => "col_" ++ toString (i + 1),
        label := match typeInfo with
          | some ti => ti.2.1
          | none => col.name,
        unit := if col.unit ≠ "" then col.unit else
          match typeInfo with
          | some ti => ti.2.2
          | none => "",
        type := col.type,
        voidValue := hdr.columnVoid.lookup ((i : ℤ)),
        computed := false })

/-- The separator a data line is split on (`_detectSeparator`): a literal
string when `#COLUMNSEPARATOR` declared a non-empty one, else any
whitespace run. -/
inductive GefSep where
  | ws : GefSep
  | lit : String → GefSep
deriving DecidableEq, Repr

def gefDetectSeparator (hdr : GefHeader) : GefSep :=
  match hdr.columnSeparator with
  | some s => if s = "" then GefSep.ws else GefSep.lit s
  | none => GefSep.ws

def gefSplitLine (sep : GefSep) (line : String) : List String :=
  match sep with
  | GefSep.ws => splitWsS line
  | GefSep.lit s => splitOnS line s

/-- `GefParser._parseData`: one row per surviving line. -/
def gefParseRow (columnMap : List Column) (parts : List String) : Row :=
  columnMap.foldl
    (fun row col =>
      let tok := match col.index with
        | some i => parts.getD i ""
        | none => ""
      match parseFloatJS tok with
      | none => (col.key, none) :: row
      | some v =>
        match col.voidValue with
        | some (some w) => if v = w then (col.key, none) :: row else (col.key, some v) :: row
        | _ => (col.key, some v) :: row)
    []

/-- The data-line skip test of `_parseData`: blank, or starting `#` or `!`
(on the trimmed line). -/
def gefSkipLine (rawLine : String) : Bool :=
  let line := trimS rawLine
  line = "" || startsWithChar line '#' || startsWithChar line '!'

def gefParseData (lines : List String) (sep : GefSep) (columnMap : List Column) :
    List Row :=
  lines.filterMap fun rawLine =>
    if gefSkipLine rawLine then none
    else
      let parts := ((gefSplitLine sep (trimS rawLine)).map trimS).filter (· ≠ "")
      if parts.length < columnMap.length then none
      else some (gefParseRow columnMap parts)

/-- `GefParser._computeDerived`: synthesize `depth` from `length` and `rf`
from `qc`/`fs`.  Note the asymmetry, taken from the source: the `rf` loop
has an `else row.rf = null` branch, the `depth` loop does not — a row whose
`length` is null receives no `depth` entry at all. -/
def gefComputeDerived (data : List Row) (columnMap : List Column) :
    List Row × List Column :=
  let hasKey := fun (cols : List Column) k => cols.any fun c => c.key = k
  let (data, columnMap) :=
    if ¬ hasKey columnMap "depth" ∧ hasKey columnMap "length" then
      (data.map fun row =>
        match row.lookup "length" with
        | some (some v) => ("depth", some (-v)) :: row
        | _ => row,
       columnMap ++ [{ mkColumn "depth" "Diepte (berekend)" "m" with computed := true }])
    else (data, columnMap)
  if ¬ hasKey columnMap "rf" ∧ hasKey columnMap "qc" ∧ hasKey columnMap "fs" then
    (data.map fun row =>
      match row.lookup "qc", row.lookup "fs" with
      | some (some q), some (some f) =>
        if q ≠ 0 then ("rf", some (f / q * 100)) :: row else ("rf", none) :: row
      | _, _ => ("rf", none) :: row,
     columnMap ++ [{ mkColumn "rf" "Wrijvingsgetal (berekend)" "%" with computed := true }])
  else (data, columnMap)

/-- `s.padStart(2, '0')`. -/
def padStart2 (s : String) : String :=
  if s.length = 0 then "00" else if s.length = 1 then "0" ++ s else s

/-- `GefParser._extractMetadata`: the metadata object, as an association
list in insertion order (conditional fields omitted when their source
header field is absent or empty — JS truthiness). -/
def gefExtractMetadata (hdr : GefHeader) : List (String × String) :=
  let get := fun k => match hdr.fields.lookup k with
    | some v => if v = "" then none else some v
    | none => none
  let testId := get "TESTID"
  let projectId := get "PROJECTID"
  let base :=
    (match testId with | some v => [("testId", v)] | none => []) ++
    (match projectId with | some v => [("projectId", v)] | none => []) ++
    (match get "PROJECTNAME" with | some v => [("projectName", v)] | none => []) ++
    (match get "COMPANYID" with | some v => [("company", v)] | none => []) ++
    (match get "STARTDATE" with
     | some v =>
       let parts := (splitOnS v ",").map trimS
       if 3 ≤ parts.length then
         [("date", padStart2 (parts.getD 2 "") ++ "-" ++ padStart2 (parts.getD 1 "") ++ "-" ++
            parts.getD 0 "")]
       else []
     | none => []) ++
    (match get "ZID" with
     | some v =>
       let parts := (splitOnS v ",").map trimS
       if 2 ≤ parts.length then [("surfaceLevel", parts.getD 1 "" ++ " m NAP")]
       else [("surfaceLevel", v)]
     | none => []) ++
    (match get "XYID" with
     | some v =>
       let parts := (splitOnS v ",").map trimS
       if 3 ≤ parts.length then
         [("x", parts.getD 1 ""), ("y", parts.getD 2 ""), ("coordSystem", parts.getD 0 "")]
       else []
     | none => []) ++
    (match get "MEASUREMENTVAR" with | some v => [("measurementVar", v)] | none => []) ++
    (match get "GEFID" with | some v => [("gefVersion", v)] | none => []) ++
    (match get "FILEOWNER" with | some v => [("fileOwner", v)] | none => [])
  base ++ [("name",
    match testId with
    | some v => v
    | none => match projectId with | some v => v | none => "Onbekend")]

/-- The canonical `FormatRecord` both parsers produce. -/
structure FormatRecord where
  header : List (String × String)
  columns : List Column
  data : List Row
deriving DecidableEq, Repr

/-- Line splitting of `GefParser.parse`:
`text.replace(/\r\n/g,'\n').replace(/\r/g,'\n').split('\n')`. -/
def gefLines (text : String) : List String :=
  (splitOnL ['\n'] (normalizeNl text.data)).map fun cs => (⟨cs⟩ : String)

/-- `GefParser.parse`. -/
def gefParse (text : String) : Except String FormatRecord :=
  match gefScan (emptyGefHeader, []) (gefLines text) with
  | (_, false, _) => Except.error "Geen #EOH gevonden — ongeldig GEF-bestand"
  | ((hdr, cols), true, rest) =>
    let columnMap := gefBuildColumnMap cols hdr
    let sep := gefDetectSeparator hdr
    let data := gefParseData rest sep columnMap
    let (data, columnMap) := gefComputeDerived data columnMap
    Except.ok ⟨gefExtractMetadata hdr, columnMap, data⟩

/-! ## Parser B: BroXmlParser (src/unnamed/part_004)

Only the measurement-data stage (`_parseData`, lines 155–208, and
`_computeDerived`) is embedded: XML tree navigation (`DOMParser`,
`querySelector`, metadata extraction) is host-API glue outside the claims'
scope.  `broParseData` starts from the `values` element's text content and
the token/block separators read from `TextEncoding` (defaults `","`/`";"`). -/

def BRO_COLUMN_ORDER : List (String × String × String) :=
  [("length", "Sondeerlengte", "m"),
   ("depth", "Diepte", "m"),
   ("elapsedTime", "Verstreken tijd", "s"),
   ("qc", "Conusweerstand", "MPa"),
   ("corrected_qc", "Gecorr. conusweerstand", "MPa"),
   ("net_qc", "Netto conusweerstand", "MPa"),
   ("mag_x", "Magnetisch veld X", "nT"),
   ("mag_y", "Magnetisch veld Y", "nT"),
   ("mag_z", "Magnetisch veld Z", "nT"),
   ("mag_total", "Magnetisch veld totaal", "nT"),
   ("electric_cond", "Elektrische geleidbaarheid", "S/m"),
   ("incl_ew", "Inclinatie O-W", "graden"),
   ("incl_ns", "Inclinatie N-Z", "graden"),
   ("incl_x", "Inclinatie X", "graden"),
   ("incl_y", "Inclinatie Y", "graden"),
   ("inclination", "Inclinatie resultant", "graden"),
   ("mag_inclination", "Magnetische inclinatie", "graden"),
   ("mag_declination", "Magnetische declinatie", "graden"),
   ("fs", "Plaatselijke wrijving", "MPa"),
   ("pore_ratio", "Poriënratio", "-"),
   ("temp", "Temperatuur", "°C"),
   ("u1", "Waterspanning u1", "MPa"),
   ("u2", "Waterspanning u2", "MPa"),
   ("u3", "Waterspanning u3", "MPa"),
   ("rf", "Wrijvingsgetal", "%")]

def BRO_VOID_VALUE : ℚ := -999999

/-- The per-token value rule of `_parseData`: non-numeric or the sentinel
`-999999` becomes `null`. -/
def broVal (tok : String) : Option ℚ :=
  match parseFloatJS tok with
  | none => none
  | some v => if v = BRO_VOID_VALUE then none else some v

/-- `for (let i = 0; i < 25; i++) row[colDef.key] = …` on one block's tokens. -/
def broRowAux : List (String × String × String) → List String → Row
  | [], _ => []
  | c :: cs, toks => (c.1, broVal (toks.headD "")) :: broRowAux cs toks.tail

def broRow (tokens : List String) : Row := broRowAux BRO_COLUMN_ORDER tokens

/-- The active-columns map restricted to flagged columns
(`_parseData` lines 172–182); `active` is `_parseParameters`' 25 flags. -/
def broColumns (active : List Bool) : List Column :=
  (BRO_COLUMN_ORDER.enum.filterMap fun (i, c) =>
    if active.getD i false then
      some { mkColumn c.1 c.2.1 c.2.2 with index := some i }
    else none)

/-- The block/token loop of `BroXmlParser._parseData` (lines 184–205). -/
def broParseData (rawText tokenSep blockSep : String) : List Row :=
  let blocks := (splitOnS (trimS rawText) blockSep).filter fun b => trimS b ≠ ""
  blocks.filterMap fun block =>
    let tokens := splitOnS (trimS block) tokenSep
    if tokens.length < 25 then none
    else some (broRow tokens)

/-- `BroXmlParser._computeDerived` — identical to Parser A's `rf` branch. -/
def broComputeDerived (data : List Row) (columns : List Column) :
    List Row × List Column :=
  let hasKey := fun (cols : List Column) k => cols.any fun c => c.key = k
  if ¬ hasKey columns "rf" ∧ hasKey columns "qc" ∧ hasKey columns "fs" then
    (data.map fun row =>
      match row.lookup "qc", row.lookup "fs" with
      | some (some q), some (some f) =>
        if q ≠ 0 then ("rf", some (f / q * 100)) :: row else ("rf", none) :: row
      | _, _ => ("rf", none) :: row,
     columns ++ [{ mkColumn "rf" "Wrijvingsgetal (berekend)" "%" with computed := true }])
  else (data, columns)

/-! ## Chart renderer viewport (src/unnamed/part_002)

Only the depth extent / viewport state and the operations that mutate it are
embedded; the drawing code reads this state but never writes it.  A pan
gesture's net effect on the viewport is a shift: each `_onMouseMove` during a
pan sets the viewport to the drag-start viewport shifted by
`-dy * (panSpan / plotH)` depth units, i.e. some rational offset.  The wheel
handler's `y`-inside-plot guard is, through the affine `_y2d`, exactly the
condition that the anchor depth lies inside the current viewport. -/

structure ChartState where
  depthMin : ℚ
  depthMax : ℚ
  depthViewMin : ℚ
  depthViewMax : ℚ
deriving DecidableEq, Repr

/-- `CptChart.setData` (lines 88–111), restricted to the depth fields; the
per-panel axis maxima (`qcMax`, `fsMax`, `rfMax`) are not part of any
viewport claim and are omitted. -/
def chartSetData (data : List Row) (columns : List Column) : ChartState :=
  let hasDepth := columns.any fun c => c.key = "depth"
  let depths : List (Option ℚ) := data.map fun r =>
    match (if hasDepth then r.lookup "depth" else r.lookup "length").join with
    | some v => some |v|
    | none => none
  let valid := depths.filterMap id
  let depthMax : ℚ :=
    if valid.isEmpty then 30
    else ((⌈(valid.foldl max 0 * (51/50) + 1/2 : ℚ)⌉ : ℤ) : ℚ)
  ⟨0, depthMax, 0, depthMax⟩

inductive ChartOp where
  | pan (delta : ℚ)
  | wheel (anchor : ℚ) (zoomOutDir : Bool)
  | zoomIn
  | zoomOut
  | zoomFit
deriving DecidableEq, Repr

/-- One interaction step (`_onMouseMove` pan branch, `_onWheel`, `zoomIn`,
`zoomOut`, `zoomFit`). -/
def chartStep (s : ChartState) : ChartOp → ChartState
  | ChartOp.pan δ =>
    { s with depthViewMin := s.depthViewMin + δ, depthViewMax := s.depthViewMax + δ }
  | ChartOp.wheel d out =>
    if s.depthViewMin ≤ d ∧ d ≤ s.depthViewMax then
      let f : ℚ := if out then 28/25 else 25/28
      let nMin := d - (d - s.depthViewMin) * f
      let nMax := d + (s.depthViewMax - d) * f
      if nMax - nMin < 1/2 then s
      else { s with depthViewMin := nMin, depthViewMax := nMax }
    else s
  | ChartOp.zoomIn =>
    let c := (s.depthViewMin + s.depthViewMax) / 2
    let r := (s.depthViewMax - s.depthViewMin) / (13/10)
    if r < 1/2 then s
    else { s with depthViewMin := c - r/2, depthViewMax := c + r/2 }
  | ChartOp.zoomOut =>
    let c := (s.depthViewMin + s.depthViewMax) / 2
    let r := (s.depthViewMax - s.depthViewMin) * (13/10)
    { s with depthViewMin := c - r/2, depthViewMax := c + r/2 }
  | ChartOp.zoomFit =>
    { s with depthViewMin := s.depthMin, depthViewMax := s.depthMax }

def chartRun (s : ChartState) (ops : List ChartOp) : ChartState :=
  ops.foldl chartStep s

/-! ## Helper lemmas -/

theorem except_toOption_ok {x : Except String FormatRecord} {r : FormatRecord}
    (h : x.toOption = some r) : x = Except.ok r := by
  cases x with
  | ok a => simpa [Except.toOption] using h
  | error e => simp [Except.toOption] at h

/-! ## C1 — classify: total on valid inputs, null exactly on invalid ones -/

set_option maxHeartbeats 1000000 in
/-- C1: for present inputs with `qc > 0` and `rf ≥ 0`, `classify` returns one
of the 9 fixed zones (it is a Lean function, hence deterministic and free of
hidden state), and it returns `null` exactly when an input is missing or
`qc ≤ 0` or `rf < 0`. -/
theorem classify_total_on_valid_and_null_exactly (qc rf : Option ℚ) :
    (classify qc rf = none ↔
      qc = none ∨ rf = none ∨ ∃ q r, qc = some q ∧ rf = some r ∧ (q ≤ 0 ∨ r < 0)) ∧
    (∀ q r, qc = some q → rf = some r → 0 < q → 0 ≤ r →
      ∃ z ∈ ROBERTSON_ZONES, classify qc rf = some z) := by
  constructor
  · match qc, rf with
    | none, none => simp [classify]
    | none, some r => simp [classify]
    | some q, none => simp [classify]
    | some q, some r =>
      simp only [classify, reduceCtorEq, Option.some.injEq, false_or]
      by_cases hqr : q ≤ 0 ∨ r < 0
      · simp only [if_pos hqr]
        constructor
        · intro _; exact ⟨q, r, rfl, rfl, hqr⟩
        · intro _; trivial
      · rw [if_neg hqr]
        constructor
        · intro h; exfalso; revert h; split_ifs <;> simp
        · rintro ⟨q', r', hq, hr, h⟩
          cases hq; cases hr; exact absurd h hqr
  · intro q r hq hr hq0 hr0
    subst hq; subst hr
    simp only [classify]
    rw [if_neg (by push_neg; exact ⟨hq0, hr0⟩)]
    split_ifs <;> exact ⟨_, by decide, rfl⟩

/-- Witness for C1 at the concrete valid input `(qc, rf) = (3, 1)`. -/
theorem classify_total_on_valid_witness :
    ∃ z ∈ ROBERTSON_ZONES, classify (some 3) (some 1) = some z :=
  (classify_total_on_valid_and_null_exactly (some 3) (some 1)).2 3 1 rfl rfl
    (by norm_num) (by norm_num)

/-! ## C2 — strict boundaries: `classify(25.0, 0.5)`

The claim asserts `classify(25.0, 0.5)` returns zone 7.  The code's `<` is
indeed strict on the `qc` boundary — 25 is not `> 25`, so the `qc > 10` band
is used — but it is equally strict on the `rf` threshold inside that band:
`0.5 < 0.5` is false, so the point falls through to the `rf < 1.5` branch
and gets zone 6 (`ROBERTSON_ZONES[5] = RZ 5`), not zone 7 (`RZ 6`). -/

/-- Counterexample to C2: at the claim's own input `(25.0, 0.5)` the code
returns zone 6, not zone 7. -/
theorem classify_at_qc25_rfhalf_not_zone7 :
    classify (some 25) (some (1/2)) = some (RZ 5) ∧
    classify (some 25) (some (1/2)) ≠ some (RZ 6) ∧
    (RZ 5).zone = 6 ∧ (RZ 6).zone = 7 := by
  decide

/-- C2 amended: `classify(25.0, 0.5)` takes the `qc > 10` band (25 is not
`> 25`) and, since 0.5 is not `< 0.5`, lands on the `rf < 1.5` branch: zone 6.
Had 25 been in the `qc > 25` band the result would have been zone 7 (as it is
for `qc = 26`), and with `rf = 0.4` strictly below the 0.5 threshold the band
does return zone 7. -/
theorem classify_boundary_strict_bands :
    classify (some 25) (some (1/2)) = some (RZ 5) ∧
    classify (some 25) (some (2/5)) = some (RZ 6) ∧
    classify (some 26) (some (1/2)) = some (RZ 6) ∧
    (RZ 5).zone = 6 ∧ (RZ 6).zone = 7 := by
  decide

/-! ## C4 — thin-layer absorption on the three-point example -/

set_option maxHeartbeats 2000000 in
/-- C4: `mergeLayers` on `[{0, z1}, {0.1, z1}, {0.3, z2}]` with minimum
thickness 0.2 yields the single layer `[0, 0.3]` with zone `z1`: the
zero-thickness `z2` singleton is absorbed by extending the preceding `z1`
layer's end depth (and when `z2` happens to equal `z1` the three points
coalesce into the same single layer directly). -/
theorem mergeLayers_absorbs_thin_singleton (z1 z2 : SoilZone) :
    mergeLayers [⟨0, some z1⟩, ⟨1/10, some z1⟩, ⟨3/10, some z2⟩] (1/5) = [⟨0, 3/10, z1⟩] := by
  have h1 : byDepth ((1:ℚ)/10, z1) ((3:ℚ)/10, z2) := by unfold byDepth; norm_num
  have h2 : byDepth ((0:ℚ), z1) ((1:ℚ)/10, z1) := by unfold byDepth; norm_num
  by_cases h : z2.zone = z1.zone <;>
    simp only [mergeLayers, List.filterMap, Option.map_some, List.insertionSort,
      List.orderedInsert, if_pos h1, if_pos h2, buildLayersGo, absorbGo, h, if_true,
      if_pos, List.length_cons, List.length_nil] <;>
    norm_num [absorbGo, h]

/-! ## C7 — row/column key invariant (violated by the derived-depth loop)

`_computeDerived` in `gef-parser.js` synthesizes `depth = -length` only for
rows whose `length` is non-null (there is no `else` branch, unlike the `rf`
loop), yet it always appends the `depth` column descriptor.  A row whose
`length` is the registered void value therefore carries no `depth` entry at
all while `depth` is listed in `columns` — the invariant fails. -/

set_option maxRecDepth 10000 in
/-- C7: concrete failing input for the row/column invariant.  The GEF file
has one `length` column with void value `999`; the first data row's `length`
is void, so after derivation the record's columns contain key `depth` but
that row has no `depth` entry (JS `undefined`, not an explicit null). -/
theorem gefParse_derived_depth_key_missing :
    ∃ r, gefParse "#COLUMNINFO= 1, m, Sondeerlengte, 1\n#COLUMNVOID= 1, 999\n#EOH\n999\n1.5" =
        Except.ok r ∧
      (∃ c ∈ r.columns, c.key = "depth") ∧ ∃ row ∈ r.data, row.lookup "depth" = none :=
  ⟨((gefParse "#COLUMNINFO= 1, m, Sondeerlengte, 1\n#COLUMNVOID= 1, 999\n#EOH\n999\n1.5").toOption.getD
      ⟨[], [], []⟩),
    except_toOption_ok (by decide),
    by decide, by decide⟩

/-! ## C10 — viewport vs. data extent

The claim is false: `zoomOut` (and likewise pan and wheel zoom-out) applies
no clamping, so a single zoom-out from the `setData` state already pushes
`depthViewMin` below `depthMin`.  The sub-range property does hold for the
operations that shrink or reset the viewport: `zoomIn`, wheel zoom-in
(whose pointer anchor always lies inside the current viewport, by the
handler's `y`-range guard), and `zoomFit`. -/

def safeOp : ChartOp → Bool
  | ChartOp.pan _ => false
  | ChartOp.wheel _ dir => !dir
  | ChartOp.zoomIn => true
  | ChartOp.zoomOut => false
  | ChartOp.zoomFit => true

/-- The claimed invariant: the visible range is a sub-range of the data's
depth extent. -/
def viewInExtent (s : ChartState) : Prop :=
  s.depthMin ≤ s.depthViewMin ∧ s.depthViewMax ≤ s.depthMax ∧
    s.depthViewMin ≤ s.depthViewMax

theorem le_foldl_max (l : List ℚ) (a : ℚ) : a ≤ l.foldl max a := by
  induction l generalizing a with
  | nil => exact le_refl a
  | cons x xs ih => exact le_trans (le_max_left a x) (ih (max a x))

theorem chartSetData_shape (data : List Row) (columns : List Column) :
    ∃ D : ℚ, chartSetData data columns = ⟨0, D, 0, D⟩ ∧ 0 ≤ D := by
  unfold chartSetData
  dsimp only
  refine ⟨_, rfl, ?_⟩
  generalize (List.filterMap id
    (List.map (fun r =>
      match (if (columns.any fun c => decide (c.key = "depth")) = true then List.lookup "depth" r
             else List.lookup "length" r).join with
      | some v => some |v|
      | none => none) data)) = V
  split_ifs with h
  · norm_num
  · have h0 := le_foldl_max V 0
    have hc := Int.le_ceil (V.foldl max 0 * (51/50) + 1/2)
    nlinarith

theorem chartStep_safe_preserves (s : ChartState) (op : ChartOp)
    (hop : safeOp op = true) (h : viewInExtent s) :
    viewInExtent (chartStep s op) := by
  obtain ⟨h1, h2, h3⟩ := h
  cases op with
  | pan δ => simp [safeOp] at hop
  | wheel d dir =>
    cases dir with
    | true => simp [safeOp] at hop
    | false =>
      simp only [chartStep, Bool.false_eq_true, if_false]
      split_ifs with hin hsmall
      · exact ⟨h1, h2, h3⟩
      · obtain ⟨hd1, hd2⟩ := hin
        refine ⟨?_, ?_, ?_⟩ <;> simp only <;> linarith
      · exact ⟨h1, h2, h3⟩
  | zoomIn =>
    simp only [chartStep]
    split_ifs with hsmall
    · exact ⟨h1, h2, h3⟩
    · refine ⟨?_, ?_, ?_⟩ <;> simp only <;> linarith
  | zoomOut => simp [safeOp] at hop
  | zoomFit =>
    simp only [chartStep]
    exact ⟨le_refl _, le_refl _, by linarith⟩

/-- Counterexample to C10: from the `setData` state for a single point at
depth 10 (extent `[0, 11]`), the one-element operation sequence `[zoomOut]`
— an operation the claim includes — leaves the viewport at
`[-1.65, 12.65]`, which is not a sub-range of `[0, 11]`. -/
theorem chart_zoomOut_escapes_extent :
    ¬ viewInExtent (chartRun (chartSetData [[("depth", some 10)]]
      [mkColumn "depth" "Diepte" "m"]) [ChartOp.zoomOut]) := by
  intro h
  exact absurd h.1 (by decide)

theorem chartRun_safe_preserves (s : ChartState) (ops : List ChartOp)
    (hsafe : ∀ op ∈ ops, safeOp op = true) (h : viewInExtent s) :
    viewInExtent (chartRun s ops) := by
  induction ops generalizing s with
  | nil => exact h
  | cons op rest ih =>
    simp only [chartRun, List.foldl_cons]
    exact ih (chartStep s op)
      (fun o ho => hsafe o (List.mem_cons_of_mem _ ho))
      (chartStep_safe_preserves s op (hsafe op (List.mem_cons_self _ _)) h)

/-- C10 amended: in every renderer state reachable from `setData` by
`zoomIn`, wheel zoom-in and `zoomFit` operations, the visible depth range
`[depthViewMin, depthViewMax]` is a sub-range of the data's full extent
`[depthMin, depthMax]`; `pan`, wheel zoom-out and `zoomOut` are excluded,
as they apply no clamping and can move the viewport outside the extent. -/
theorem chart_view_subrange_of_safe_ops (data : List Row) (columns : List Column)
    (ops : List ChartOp) (hsafe : ∀ op ∈ ops, safeOp op = true) :
    viewInExtent (chartRun (chartSetData data columns) ops) := by
  obtain ⟨D, hD, hD0⟩ := chartSetData_shape data columns
  rw [hD]
  exact chartRun_safe_preserves _ ops hsafe ⟨le_refl _, le_refl _, hD0⟩

/-- Witness for C10 amended at a concrete record and operation sequence. -/
theorem chart_view_subrange_witness :
    viewInExtent (chartRun (chartSetData [[("depth", some 10)]]
      [mkColumn "depth" "Diepte" "m"])
      [ChartOp.zoomIn, ChartOp.wheel 2 false, ChartOp.zoomFit]) :=
  chart_view_subrange_of_safe_ops _ _ _ (by intro op hop; fin_cases hop <;> rfl)

/-! ## C8 — classifyDataset

The claim is false on the fall-back path: the filter uses
`row.depth !== undefined ? row.depth : row.length`, but the mapped depth is
`row.depth !== undefined ? Math.abs(row.depth) : row.length` — the `length`
fall-back is NOT passed through `Math.abs`.  A row with no `depth` field and
a negative `length` is kept and emitted with the raw negative depth. -/

/-- Counterexample to C8: the row `{length: -2}` (no depth field) is kept,
and its emitted classification depth is `-2`, not `|-2| = 2` as the claim
requires. -/
theorem classifyDataset_keeps_raw_negative_length :
    classifyDataset [[("length", some (-2))]] = [⟨-2, none⟩] ∧
    ((-2 : ℚ) ≠ |(-2 : ℚ)|) := by
  decide

/-- C8 amended: `classifyDataset` keeps exactly the rows whose depth
indicator is present and non-null — the `depth` field when it exists, else
the `length` field — and emits, per kept row, the absolute value `|depth|`
when the `depth` field exists (it is then necessarily non-null) but the raw
`length` value (no absolute value) on the fall-back, with the zone
classified from that row's `qc` and `rf`. -/
theorem classifyDataset_characterization (rows : List Row) :
    classifyDataset rows = rows.filterMap fun r =>
      match r.lookup "depth" with
      | some (some v) => some ⟨|v|, classify (jsField r "qc") (jsField r "rf")⟩
      | some none => none
      | none =>
        match (r.lookup "length").join with
        | some w => some ⟨w, classify (jsField r "qc") (jsField r "rf")⟩
        | none => none := by
  induction rows with
  | nil => rfl
  | cons r rs ih =>
    have hpoint : (if keepRow r = true then
        some (⟨emittedDepth r, classify (jsField r "qc") (jsField r "rf")⟩ : CPoint) else none) =
      (match r.lookup "depth" with
       | some (some v) => some (⟨|v|, classify (jsField r "qc") (jsField r "rf")⟩ : CPoint)
       | some none => none
       | none =>
         match (r.lookup "length").join with
         | some w => some ⟨w, classify (jsField r "qc") (jsField r "rf")⟩
         | none => none) := by
      unfold keepRow emittedDepth
      rcases hd : r.lookup "depth" with _ | (_ | v)
      · simp only [hd]
        rcases hl : (r.lookup "length").join with _ | w
        · simp only [hl, Option.isSome_none, if_neg]
          simp
        · have : r.lookup "length" = some (some w) := by
            rcases hll : r.lookup "length" with _ | (_ | u) <;> rw [hll] at hl <;>
              simp [Option.join] at hl
            · rw [hl]
          rw [this]
          simp [hl]
      · simp [hd]
      · simp [hd]
    by_cases hk : keepRow r = true
    · rw [if_pos hk] at hpoint
      simp only [classifyDataset, List.filter_cons, hk, if_true, List.map_cons,
        List.filterMap_cons, ← hpoint]
      exact congrArg _ ih
    · rw [if_neg hk] at hpoint
      simp only [classifyDataset, List.filter_cons, hk, if_false, List.filterMap_cons,
        ← hpoint, Bool.false_eq_true]
      exact ih

/-! ## C5 — computeDistribution

The claim quantifies over every non-empty layer set; but a non-empty set
whose layers all have non-positive thickness (e.g. a single zero-thickness
layer) gives a zero total, for which the code returns the empty sequence —
the percentages then sum to 0, not 100.  With at least one positive-thickness
layer (and each layer's zone drawn from the fixed table, which is everything
`mergeLayers` ever emits), the exact-rational percentage sum is 100, every
returned entry is strictly positive, and the output is sorted descending by
percentage (`byPercDesc`).  The supporting lemmas walk the accumulation
loop `distStep`. -/

/-- Counterexample to C5: the non-empty layer set `[{0, 0, zone 3}]` has
zero total thickness, `computeDistribution` returns the empty sequence, and
the percentages sum to 0, not 100. -/
theorem computeDistribution_zero_thickness_empty :
    computeDistribution [⟨0, 0, RZ 2⟩] = [] ∧
    (([⟨0, 0, RZ 2⟩] : List Layer) ≠ []) ∧
    ((computeDistribution [⟨0, 0, RZ 2⟩]).map (·.percentage)).sum ≠ 100 := by
  decide

def zoneSum (f : Nat → ℚ) : ℚ := (ROBERTSON_ZONES.map fun z => f z.zone).sum

theorem zoneSum_addTotal (f : Nat → ℚ) (z : SoilZone) (hz : z ∈ ROBERTSON_ZONES) (t : ℚ) :
    zoneSum (addTotal f z.zone t) = zoneSum f + t := by
  fin_cases hz <;> simp [zoneSum, ROBERTSON_ZONES, addTotal] <;> ring

theorem foldl_distStep_zoneSum (layers : List Layer) :
    ∀ (f : Nat → ℚ) (tot : ℚ), (∀ l ∈ layers, l.zone ∈ ROBERTSON_ZONES) →
    zoneSum (layers.foldl distStep (f, tot)).1 - (layers.foldl distStep (f, tot)).2
      = zoneSum f - tot := by
  induction layers with
  | nil => intro f tot _; simp
  | cons l ls ih =>
    intro f tot hz
    simp only [List.foldl_cons, distStep]
    by_cases ht : l.endDepth - l.startDepth ≤ 0
    · rw [if_pos ht]
      exact ih f tot fun x hx => hz x (List.mem_cons_of_mem _ hx)
    · rw [if_neg ht]
      rw [ih _ _ fun x hx => hz x (List.mem_cons_of_mem _ hx)]
      rw [zoneSum_addTotal f l.zone (hz l (List.mem_cons_self _ _))]
      ring

theorem foldl_distStep_nonneg (layers : List Layer) :
    ∀ (f : Nat → ℚ) (tot : ℚ), (∀ n, 0 ≤ f n) →
    ∀ n, 0 ≤ (layers.foldl distStep (f, tot)).1 n := by
  induction layers with
  | nil => intro f tot hf n; exact hf n
  | cons l ls ih =>
    intro f tot hf
    simp only [List.foldl_cons, distStep]
    by_cases ht : l.endDepth - l.startDepth ≤ 0
    · rw [if_pos ht]; exact ih f tot hf
    · rw [if_neg ht]
      refine ih _ _ fun n => ?_
      unfold addTotal
      split_ifs
      · linarith [hf n]
      · exact hf n

theorem foldl_distStep_tot_mono (layers : List Layer) :
    ∀ (f : Nat → ℚ) (tot : ℚ), tot ≤ (layers.foldl distStep (f, tot)).2 := by
  induction layers with
  | nil => intro f tot; exact le_refl tot
  | cons l ls ih =>
    intro f tot
    simp only [List.foldl_cons, distStep]
    by_cases ht : l.endDepth - l.startDepth ≤ 0
    · rw [if_pos ht]; exact ih f tot
    · rw [if_neg ht]
      calc tot ≤ tot + (l.endDepth - l.startDepth) := by linarith
        _ ≤ _ := ih _ _

theorem foldl_distStep_tot_pos (layers : List Layer) :
    ∀ (f : Nat → ℚ) (tot : ℚ), (∃ l ∈ layers, l.startDepth < l.endDepth) →
    tot < (layers.foldl distStep (f, tot)).2 := by
  induction layers with
  | nil => intro f tot h; simp at h
  | cons l ls ih =>
    intro f tot h
    simp only [List.foldl_cons, distStep]
    rcases h with ⟨l', hl', hlt⟩
    rcases List.mem_cons.mp hl' with rfl | hmem
    · rw [if_neg (by push_neg; linarith)]
      calc tot < tot + (l'.endDepth - l'.startDepth) := by linarith
        _ ≤ _ := foldl_distStep_tot_mono ls _ _
    · by_cases ht : l.endDepth - l.startDepth ≤ 0
      · rw [if_pos ht]; exact ih f tot ⟨l', hmem, hlt⟩
      · rw [if_neg ht]
        calc tot < tot + (l.endDepth - l.startDepth) := by linarith
          _ < _ := ih _ _ ⟨l', hmem, hlt⟩

theorem sum_filter_pos_percentage (l : List DistEntry)
    (h : ∀ e ∈ l, 0 ≤ e.percentage) :
    ((l.filter fun d => decide (0 < d.percentage)).map (·.percentage)).sum
      = (l.map (·.percentage)).sum := by
  induction l with
  | nil => rfl
  | cons e l ih =>
    have ih' := ih fun x hx => h x (List.mem_cons_of_mem _ hx)
    by_cases hp : 0 < e.percentage
    · have hd : (decide (0 < e.percentage)) = true := decide_eq_true hp
      simp only [List.filter_cons, hd, if_true, List.map_cons, List.sum_cons, ih']
    · have h0 : e.percentage = 0 :=
        le_antisymm (not_lt.mp hp) (h e (List.mem_cons_self _ _))
      have hd : (decide (0 < e.percentage)) = false := decide_eq_false hp
      simp only [List.filter_cons, hd, Bool.false_eq_true, if_false, List.map_cons,
        List.sum_cons, ih']
      linarith

/-- C5 amended: for every layer set drawn from the 9 fixed zones that
contains at least one layer of positive thickness, the percentages returned
by `computeDistribution` sum to exactly 100 over rational arithmetic, each
returned entry has positive percentage, and entries are sorted descending
by percentage. -/
theorem computeDistribution_props (layers : List Layer)
    (hz : ∀ l ∈ layers, l.zone ∈ ROBERTSON_ZONES)
    (hpos : ∃ l ∈ layers, l.startDepth < l.endDepth) :
    ((computeDistribution layers).map (·.percentage)).sum = 100 ∧
    (∀ e ∈ computeDistribution layers, 0 < e.percentage) ∧
    List.Sorted byPercDesc (computeDistribution layers) := by
  have hne : layers.isEmpty = false := by
    rcases hpos with ⟨l, hl, _⟩
    cases layers
    · simp at hl
    · rfl
  have hT : 0 < (distTotals layers).2 := foldl_distStep_tot_pos layers _ 0 hpos
  have hT0 : ¬ (distTotals layers).2 = 0 := ne_of_gt hT
  have htotnn : ∀ n, 0 ≤ (distTotals layers).1 n :=
    foldl_distStep_nonneg layers _ 0 (fun _ => le_refl 0)
  have hzsum : zoneSum (distTotals layers).1 = (distTotals layers).2 := by
    have h1 := foldl_distStep_zoneSum layers (fun _ => 0) 0 hz
    have hz0 : zoneSum (fun _ => 0) = 0 := by simp [zoneSum, ROBERTSON_ZONES]
    unfold distTotals
    rw [hz0] at h1
    linarith
  unfold computeDistribution
  rw [if_neg (by simp [hne])]
  dsimp only
  rw [if_neg hT0]
  set T := (distTotals layers).2 with hTdef
  set totals := (distTotals layers).1 with htots
  set entries := ROBERTSON_ZONES.map
    (fun z => (⟨z, totals z.zone, totals z.zone / T * 100⟩ : DistEntry)) with hentries
  set filtered := entries.filter (fun d => decide (0 < d.percentage)) with hfiltered
  have hperm := List.perm_insertionSort byPercDesc filtered
  have hallnn : ∀ e ∈ entries, 0 ≤ e.percentage := by
    intro e he
    rw [hentries] at he
    rcases List.mem_map.mp he with ⟨z, hz', rfl⟩
    have := htotnn z.zone
    positivity
  refine ⟨?_, ?_, ?_⟩
  · rw [(hperm.map (·.percentage)).sum_eq]
    rw [hfiltered, sum_filter_pos_percentage entries hallnn, hentries, List.map_map]
    have : ((fun x : DistEntry => x.percentage) ∘
        fun z => (⟨z, totals z.zone, totals z.zone / T * 100⟩ : DistEntry)) =
        fun z => totals z.zone * (100 / T) := by
      funext z
      simp only [Function.comp]
      field_simp
    rw [this, List.sum_map_mul_right]
    have : (ROBERTSON_ZONES.map fun z => totals z.zone).sum = T := hzsum
    rw [this]
    field_simp
  · intro e he
    have hmem : e ∈ filtered := (List.mem_insertionSort byPercDesc).mp he
    rw [hfiltered] at hmem
    have := List.of_mem_filter hmem
    exact of_decide_eq_true this
  · exact List.sorted_insertionSort byPercDesc filtered

/-- Witness for C5 amended at a concrete two-layer set. -/
theorem computeDistribution_props_witness :
    ((computeDistribution [⟨0, 1, RZ 2⟩, ⟨1, 4, RZ 5⟩]).map (·.percentage)).sum = 100 ∧
    (∀ e ∈ computeDistribution [⟨0, 1, RZ 2⟩, ⟨1, 4, RZ 5⟩], 0 < e.percentage) ∧
    List.Sorted byPercDesc (computeDistribution [⟨0, 1, RZ 2⟩, ⟨1, 4, RZ 5⟩]) :=
  computeDistribution_props _ (by decide)
    ⟨⟨0, 1, RZ 2⟩, by decide, by decide⟩

/-! ## C3 — mergeLayers layer-set invariants

Two parts of the claim fail on the code.  Runs of samples only span
`[firstDepth, lastDepth]` of each run, so consecutive retained layers can
leave a gap between one layer's end and the next layer's start: the merged
set does not cover `[min depth, max depth]` (counterexample below, two
thick runs with a gap).  And after thin-layer absorption a layer can extend
over points of a different zone, so a merged layer need not be a maximal
same-zone run (the spec itself flags this widening in its §4.3/design
notes).  What does hold, for every input with all zones present and any
`minThickness`: every layer has `startDepth ≤ endDepth`, consecutive layers
satisfy `endDepth ≤` next `startDepth` (depth-ordered, non-overlapping),
the first layer starts at the minimum point depth and the last layer ends
at the maximum point depth. -/

theorem buildLayersGo_head (rest : List (ℚ × SoilZone)) :
    ∀ cur, ∃ l L, buildLayersGo cur rest = l :: L ∧ l.startDepth = cur.startDepth := by
  induction rest with
  | nil => intro cur; exact ⟨cur, [], rfl, rfl⟩
  | cons p rs ih =>
    intro cur
    rcases p with ⟨d, z⟩
    simp only [buildLayersGo]
    by_cases h : z.zone = cur.zone.zone
    · rw [if_pos h]
      exact ih _
    · rw [if_neg h]
      exact ⟨cur, _, rfl, rfl⟩

theorem buildLayersGo_last_end (rest : List (ℚ × SoilZone)) :
    ∀ cur (dl : Layer),
      ((buildLayersGo cur rest).getLastD dl).endDepth
        = (rest.map (·.1)).getLastD cur.endDepth := by
  induction rest with
  | nil => intro cur dl; rfl
  | cons p rs ih =>
    intro cur dl
    rcases p with ⟨d, z⟩
    simp only [buildLayersGo, List.map_cons, List.getLastD_cons]
    by_cases h : z.zone = cur.zone.zone
    · rw [if_pos h]
      exact ih ⟨cur.startDepth, d, cur.zone⟩ dl
    · rw [if_neg h]
      rcases buildLayersGo_head rs ⟨d, d, z⟩ with ⟨l, L, hL, _⟩
      have hih := ih ⟨d, d, z⟩ l
      rw [hL, List.getLastD_cons] at hih
      rw [List.getLastD_cons, hL, List.getLastD_cons]
      exact hih

theorem buildLayersGo_good (rest : List (ℚ × SoilZone)) :
    ∀ cur, cur.startDepth ≤ cur.endDepth →
      List.Chain' (fun a b : ℚ => a ≤ b) (cur.endDepth :: rest.map (·.1)) →
      (∀ l ∈ buildLayersGo cur rest, l.startDepth ≤ l.endDepth) ∧
      List.Chain' (fun a b : Layer => a.endDepth ≤ b.startDepth) (buildLayersGo cur rest) := by
  induction rest with
  | nil =>
    intro cur hse _
    refine ⟨fun l hl => ?_, List.chain'_singleton _⟩
    simp only [buildLayersGo, List.mem_singleton] at hl
    exact hl ▸ hse
  | cons p rs ih =>
    intro cur hse hch
    rcases p with ⟨d, z⟩
    simp only [List.map_cons, List.chain'_cons] at hch
    obtain ⟨hcd, hch'⟩ := hch
    simp only [buildLayersGo]
    by_cases h : z.zone = cur.zone.zone
    · rw [if_pos h]
      exact ih ⟨cur.startDepth, d, cur.zone⟩ (le_trans hse hcd) hch'
    · rw [if_neg h]
      have hgood := ih ⟨d, d, z⟩ (le_refl d) hch'
      rcases buildLayersGo_head rs ⟨d, d, z⟩ with ⟨l, L, hL, hstart⟩
      constructor
      · intro x hx
        rcases List.mem_cons.mp hx with rfl | hx'
        · exact hse
        · exact hgood.1 x hx'
      · rw [hL, List.chain'_cons, ← hL]
        exact ⟨by rw [hstart]; exact hcd, hgood.2⟩

theorem absorbGo_head (ls : List Layer) (m : ℚ) :
    ∀ cur, ∃ l L, absorbGo m cur ls = l :: L ∧ l.startDepth = cur.startDepth := by
  induction ls with
  | nil => intro cur; exact ⟨cur, [], rfl, rfl⟩
  | cons l rs ih =>
    intro cur
    simp only [absorbGo]
    by_cases h : l.endDepth - l.startDepth < m
    · rw [if_pos h]; exact ih _
    · rw [if_neg h]; exact ⟨cur, _, rfl, rfl⟩

theorem absorbGo_last_end (ls : List Layer) (m : ℚ) :
    ∀ cur (dl : Layer),
      ((absorbGo m cur ls).getLastD dl).endDepth
        = (ls.map (·.endDepth)).getLastD cur.endDepth := by
  induction ls with
  | nil => intro cur dl; rfl
  | cons l rs ih =>
    intro cur dl
    simp only [absorbGo, List.map_cons, List.getLastD_cons]
    by_cases h : l.endDepth - l.startDepth < m
    · rw [if_pos h]
      exact ih ⟨cur.startDepth, l.endDepth, cur.zone⟩ dl
    · rw [if_neg h]
      rcases absorbGo_head rs m l with ⟨x, L, hL, _⟩
      have hih := ih l x
      rw [hL, List.getLastD_cons] at hih
      rw [List.getLastD_cons, hL, List.getLastD_cons]
      exact hih

theorem absorbGo_good (ls : List Layer) (m : ℚ) :
    ∀ cur, cur.startDepth ≤ cur.endDepth →
      (∀ l ∈ ls, l.startDepth ≤ l.endDepth) →
      List.Chain' (fun a b : Layer => a.endDepth ≤ b.startDepth) (cur :: ls) →
      (∀ l ∈ absorbGo m cur ls, l.startDepth ≤ l.endDepth) ∧
      List.Chain' (fun a b : Layer => a.endDepth ≤ b.startDepth) (absorbGo m cur ls) := by
  induction ls with
  | nil =>
    intro cur hse _ _
    refine ⟨fun l hl => ?_, List.chain'_singleton _⟩
    simp only [absorbGo, List.mem_singleton] at hl
    exact hl ▸ hse
  | cons l rs ih =>
    intro cur hse hall hch
    simp only [List.chain'_cons] at hch
    obtain ⟨hcl, hch'⟩ := hch
    have hle : l.startDepth ≤ l.endDepth := hall l (List.mem_cons_self _ _)
    simp only [absorbGo]
    by_cases h : l.endDepth - l.startDepth < m
    · rw [if_pos h]
      refine ih ⟨cur.startDepth, l.endDepth, cur.zone⟩ ?_
        (fun x hx => hall x (List.mem_cons_of_mem _ hx)) ?_
      · simp only
        linarith
      · rcases rs with _ | ⟨r, rs'⟩
        · exact List.chain'_singleton _
        · simp only [List.chain'_cons] at hch' ⊢
          exact ⟨hch'.1, hch'.2⟩
    · rw [if_neg h]
      have hgood := ih l hle (fun x hx => hall x (List.mem_cons_of_mem _ hx)) hch'
      rcases absorbGo_head rs m l with ⟨x, L, hL, hstart⟩
      constructor
      · intro y hy
        rcases List.mem_cons.mp hy with rfl | hy'
        · exact hse
        · exact hgood.1 y hy'
      · rw [hL, List.chain'_cons, ← hL]
        exact ⟨by rw [hstart]; exact hcl, hgood.2⟩

theorem chain_le_last (ds : List ℚ) :
    ∀ a d : ℚ, List.Chain' (fun x y : ℚ => x ≤ y) (a :: ds) →
      ∀ x ∈ a :: ds, x ≤ (a :: ds).getLastD d := by
  induction ds with
  | nil =>
    intro a d _ x hx
    rw [List.mem_singleton] at hx
    subst hx; rfl
  | cons b ds' ih =>
    intro a d hch x hx
    simp only [List.chain'_cons] at hch
    rw [List.getLastD_cons]
    rcases List.mem_cons.mp hx with hxa | hx'
    · rw [hxa]
      exact le_trans hch.1 (ih b a hch.2 b (List.mem_cons_self _ _))
    · exact ih b a hch.2 x hx'

theorem getLastD_cons_mem (ds : List ℚ) : ∀ a d : ℚ, (a :: ds).getLastD d ∈ a :: ds := by
  induction ds with
  | nil => intro a d; simp
  | cons b ds' ih =>
    intro a d
    rw [List.getLastD_cons]
    exact List.mem_cons_of_mem a (ih b a)

theorem map_end_getLastD (L : List Layer) :
    ∀ a : Layer, (L.map (·.endDepth)).getLastD a.endDepth = (L.getLastD a).endDepth := by
  induction L with
  | nil => intro a; rfl
  | cons b L' ih =>
    intro a
    simp only [List.map_cons, List.getLastD_cons]
    exact ih b

theorem valid_depths (points : List CPoint) (hz : ∀ p ∈ points, p.zone ≠ none) :
    (points.filterMap fun c => c.zone.map fun z => (c.depth, z)).map (·.1)
      = points.map (·.depth) := by
  induction points with
  | nil => rfl
  | cons p ps ih =>
    rcases hzp : p.zone with _ | z
    · exact absurd hzp (hz p (List.mem_cons_self _ _))
    · simp only [List.filterMap_cons, hzp, Option.map_some', List.map_cons]
      rw [ih fun x hx => hz x (List.mem_cons_of_mem _ hx)]

/-- C3 amended: for every non-empty point sequence with all zones non-null
and any `minThickness`, `mergeLayers` returns a non-empty, depth-ordered,
non-overlapping sequence of layers (each with `startDepth ≤ endDepth`,
consecutive layers touching or disjoint) whose first layer starts at the
minimum point depth and whose last layer ends at the maximum point depth;
the layers need not cover every depth in between, and a layer may span
points of another zone after absorption. -/
theorem mergeLayers_ordered_and_spanning (points : List CPoint) (minT : ℚ)
    (hne : points ≠ []) (hz : ∀ p ∈ points, p.zone ≠ none) :
    (∀ l ∈ mergeLayers points minT, l.startDepth ≤ l.endDepth) ∧
    List.Chain' (fun a b : Layer => a.endDepth ≤ b.startDepth) (mergeLayers points minT) ∧
    (∃ l₁ L, mergeLayers points minT = l₁ :: L ∧
      l₁.startDepth ∈ points.map (·.depth) ∧
      (∀ x ∈ points.map (·.depth), l₁.startDepth ≤ x) ∧
      ((l₁ :: L).getLastD l₁).endDepth ∈ points.map (·.depth) ∧
      (∀ x ∈ points.map (·.depth), x ≤ ((l₁ :: L).getLastD l₁).endDepth)) := by
  set valid := points.filterMap fun c => c.zone.map fun z => (c.depth, z) with hvalid
  have hvd : valid.map (·.1) = points.map (·.depth) := valid_depths points hz
  have hvne : valid ≠ [] := by
    intro hv
    have := congrArg List.length hvd
    rw [hv] at this
    simp at this
    cases points
    · exact hne rfl
    · simp at this
  have hperm : List.Perm (List.insertionSort byDepth valid) valid := List.perm_insertionSort byDepth valid
  have hsne : List.insertionSort byDepth valid ≠ [] := by
    intro h
    have hp := hperm
    rw [h] at hp
    exact hvne hp.symm.eq_nil
  obtain ⟨⟨d, z⟩, rest, hsorted_eq⟩ : ∃ p rest, List.insertionSort byDepth valid = p :: rest := by
    rcases hs : List.insertionSort byDepth valid with _ | ⟨p, rest⟩
    · exact absurd hs hsne
    · exact ⟨p, rest, rfl⟩
  have hsorted : List.Sorted byDepth ((d, z) :: rest) :=
    hsorted_eq ▸ List.sorted_insertionSort byDepth valid
  have hchain : List.Chain' (fun x y : ℚ => x ≤ y) (d :: rest.map (·.1)) := by
    have hpair : List.Pairwise (fun x y : ℚ => x ≤ y)
        (((d, z) :: rest).map (fun p : ℚ × SoilZone => p.1)) :=
      List.Pairwise.map (fun p : ℚ × SoilZone => p.1) (fun a b hab => hab) hsorted
    simpa using hpair.chain'
  -- membership / bound facts about d and the last depth
  have hmem_sorted : ∀ x ∈ (d, z) :: rest, x ∈ valid := fun x hx =>
    (hsorted_eq ▸ hperm).mem_iff.mp hx
  have hd_mem : d ∈ points.map (·.depth) := by
    rw [← hvd]
    exact List.mem_map_of_mem (·.1) (hmem_sorted (d, z) (List.mem_cons_self _ _))
  have hd_min : ∀ x ∈ points.map (·.depth), d ≤ x := by
    intro x hx
    rw [← hvd] at hx
    rcases List.mem_map.mp hx with ⟨p, hp, rfl⟩
    have hp' : p ∈ (d, z) :: rest := (hsorted_eq ▸ hperm).mem_iff.mpr hp
    rcases List.mem_cons.mp hp' with rfl | hp''
    · rfl
    · exact (List.pairwise_cons.mp hsorted).1 p hp''
  set dmax := (rest.map (·.1)).getLastD d with hdmax
  have hdmax_mem : dmax ∈ points.map (·.depth) := by
    rw [← hvd]
    have h1 : dmax ∈ d :: rest.map (·.1) := by
      have := getLastD_cons_mem (rest.map (·.1)) d d
      rw [List.getLastD_cons] at this
      exact this
    rcases List.mem_cons.mp h1 with h2 | h2
    · rw [h2]
      exact List.mem_map_of_mem (·.1) (hmem_sorted (d, z) (List.mem_cons_self _ _))
    · rcases List.mem_map.mp h2 with ⟨p, hp, hpd⟩
      rw [← hpd]
      exact List.mem_map_of_mem (·.1) (hmem_sorted p (List.mem_cons_of_mem _ hp))
  have hdmax_ub : ∀ x ∈ points.map (·.depth), x ≤ dmax := by
    intro x hx
    rw [← hvd] at hx
    rcases List.mem_map.mp hx with ⟨p, hp, rfl⟩
    have hp' : p ∈ (d, z) :: rest := (hsorted_eq ▸ hperm).mem_iff.mpr hp
    have h1 := chain_le_last (rest.map (·.1)) d d hchain p.1 (by
      rcases List.mem_cons.mp hp' with rfl | hp''
      · exact List.mem_cons_self _ _
      · exact List.mem_cons_of_mem _ (List.mem_map_of_mem (·.1) hp''))
    rw [List.getLastD_cons] at h1
    exact h1
  -- the two passes
  have hlayer_good := buildLayersGo_good rest ⟨d, d, z⟩ (le_refl d) hchain
  obtain ⟨f1, F1, hF, hFstart⟩ := buildLayersGo_head rest ⟨d, d, z⟩
  have hlayer_last : ∀ dl : Layer,
      ((buildLayersGo ⟨d, d, z⟩ rest).getLastD dl).endDepth = dmax :=
    fun dl => buildLayersGo_last_end rest ⟨d, d, z⟩ dl
  -- unfold mergeLayers
  have hml : mergeLayers points minT =
      (if 0 < minT ∧ 1 < (buildLayersGo ⟨d, d, z⟩ rest).length then
        match buildLayersGo ⟨d, d, z⟩ rest with
        | [] => []
        | first :: ls => absorbGo minT first ls
      else buildLayersGo ⟨d, d, z⟩ rest) := by
    rw [mergeLayers, ← hvalid, hsorted_eq]
  by_cases hcond : 0 < minT ∧ 1 < (buildLayersGo ⟨d, d, z⟩ rest).length
  · rw [if_pos hcond, hF] at hml
    have hgood1 : f1.startDepth ≤ f1.endDepth := hlayer_good.1 f1 (hF ▸ List.mem_cons_self _ _)
    have hgoodls : ∀ l ∈ F1, l.startDepth ≤ l.endDepth := fun l hl =>
      hlayer_good.1 l (hF ▸ List.mem_cons_of_mem _ hl)
    have hchainF : List.Chain' (fun a b : Layer => a.endDepth ≤ b.startDepth) (f1 :: F1) :=
      hF ▸ hlayer_good.2
    have habs_good := absorbGo_good F1 minT f1 hgood1 hgoodls hchainF
    obtain ⟨l₁, L₁, hL₁, hL₁start⟩ := absorbGo_head F1 minT f1
    have habs_last : ((absorbGo minT f1 F1).getLastD l₁).endDepth = dmax := by
      rw [absorbGo_last_end F1 minT f1 l₁]
      rw [map_end_getLastD F1 f1]
      have := hlayer_last f1
      rw [hF, List.getLastD_cons] at this
      exact this
    rw [hml]
    refine ⟨habs_good.1, habs_good.2, l₁, L₁, hL₁, ?_, ?_, ?_, ?_⟩
    · rw [hL₁start, hFstart]
      exact hd_mem
    · intro x hx
      rw [hL₁start, hFstart]
      exact hd_min x hx
    · rw [← hL₁, habs_last]
      exact hdmax_mem
    · intro x hx
      rw [← hL₁, habs_last]
      exact hdmax_ub x hx
  · rw [if_neg hcond] at hml
    rw [hml]
    refine ⟨hlayer_good.1, hlayer_good.2, f1, F1, hF, ?_, ?_, ?_, ?_⟩
    · rw [hFstart]; exact hd_mem
    · intro x hx; rw [hFstart]; exact hd_min x hx
    · rw [← hF, hlayer_last f1]
      exact hdmax_mem
    · intro x hx
      rw [← hF, hlayer_last f1]
      exact hdmax_ub x hx

/-- Counterexample to C3: for the all-classified points at depths
0, 0.3 (zone 3) and 0.6, 0.9 (zone 6), `mergeLayers` returns the two layers
`[0, 0.3]` and `[0.6, 0.9]`; the depth 0.45 lies within
`[min depth, max depth] = [0, 0.9]` but inside no layer, so the output does
not cover the interval. -/
theorem mergeLayers_gap_not_covering :
    mergeLayers [⟨0, some (RZ 2)⟩, ⟨3/10, some (RZ 2)⟩, ⟨3/5, some (RZ 5)⟩,
        ⟨9/10, some (RZ 5)⟩] (1/5) = [⟨0, 3/10, RZ 2⟩, ⟨3/5, 9/10, RZ 5⟩] ∧
    (∀ p ∈ [(⟨0, some (RZ 2)⟩ : CPoint), ⟨3/10, some (RZ 2)⟩, ⟨3/5, some (RZ 5)⟩,
        ⟨9/10, some (RZ 5)⟩], p.zone ≠ none) ∧
    ((0 : ℚ) ≤ (9/20 : ℚ) ∧ (9/20 : ℚ) ≤ (9/10 : ℚ)) ∧
    ¬ ∃ l ∈ mergeLayers [⟨0, some (RZ 2)⟩, ⟨3/10, some (RZ 2)⟩, ⟨3/5, some (RZ 5)⟩,
        ⟨9/10, some (RZ 5)⟩] (1/5),
      l.startDepth ≤ 9/20 ∧ (9/20 : ℚ) ≤ l.endDepth := by
  decide

/-- Witness for C3 amended at a concrete two-point input. -/
theorem mergeLayers_ordered_witness :
    (∀ l ∈ mergeLayers [⟨0, some (RZ 2)⟩, ⟨1, some (RZ 5)⟩] (1/5),
      l.startDepth ≤ l.endDepth) ∧
    List.Chain' (fun a b : Layer => a.endDepth ≤ b.startDepth)
      (mergeLayers [⟨0, some (RZ 2)⟩, ⟨1, some (RZ 5)⟩] (1/5)) ∧
    (∃ l₁ L, mergeLayers [⟨0, some (RZ 2)⟩, ⟨1, some (RZ 5)⟩] (1/5) = l₁ :: L ∧
      l₁.startDepth ∈ ([(⟨0, some (RZ 2)⟩ : CPoint), ⟨1, some (RZ 5)⟩].map (·.depth)) ∧
      (∀ x ∈ [(⟨0, some (RZ 2)⟩ : CPoint), ⟨1, some (RZ 5)⟩].map (·.depth),
        l₁.startDepth ≤ x) ∧
      ((l₁ :: L).getLastD l₁).endDepth ∈
        ([(⟨0, some (RZ 2)⟩ : CPoint), ⟨1, some (RZ 5)⟩].map (·.depth)) ∧
      (∀ x ∈ [(⟨0, some (RZ 2)⟩ : CPoint), ⟨1, some (RZ 5)⟩].map (·.depth),
        x ≤ ((l₁ :: L).getLastD l₁).endDepth)) :=
  mergeLayers_ordered_and_spanning [⟨0, some (RZ 2)⟩, ⟨1, some (RZ 5)⟩] (1/5)
    (by decide) (by decide)

/-! ## C9 — Parser B sentinel values and strict 25-token blocks -/

theorem filterMap_if_guard {α β : Type _} (l : List α) (p : α → Prop) [DecidablePred p]
    (f : α → β) :
    (l.filterMap fun b => if p b then none else some (f b))
      = (l.filter fun b => decide (¬ p b)).map f := by
  induction l with
  | nil => rfl
  | cons a l ih =>
    by_cases hp : p a
    · simp [hp, ih]
    · simp [hp, ih]

theorem getD_tail (toks : List String) (i : Nat) :
    toks.tail.getD i "" = toks.getD (i + 1) "" := by
  cases toks <;> rfl

theorem headD_eq_getD_zero (toks : List String) : toks.headD "" = toks.getD 0 "" := by
  cases toks <;> rfl

theorem broRowAux_lookup (cs : List (String × String × String)) :
    ∀ (toks : List String) (i : Nat), i < cs.length → (cs.map (·.1)).Nodup →
      (broRowAux cs toks).lookup ((cs.getD i ("", "", "")).1)
        = some (broVal (toks.getD i "")) := by
  induction cs with
  | nil => intro toks i hi _; simp at hi
  | cons c cs' ih =>
    intro toks i hi hnd
    simp only [List.map_cons, List.nodup_cons] at hnd
    cases i with
    | zero =>
      simp only [broRowAux, List.getD_cons_zero, List.lookup, beq_self_eq_true, cond]
      rw [headD_eq_getD_zero]
    | succ i =>
      have hlen : i < cs'.length := by simpa using hi
      have hmem : cs'.getD i ("", "", "") ∈ cs' := by
        rw [List.getD_eq_getElem?_getD, List.getElem?_eq_getElem hlen]
        exact List.getElem_mem hlen
      have hkey : (cs'.getD i ("", "", "")).1 ∈ cs'.map (·.1) :=
        List.mem_map_of_mem (·.1) hmem
      have hne : ((cs'.getD i ("", "", "")).1 == c.1) = false := by
        rw [beq_eq_false_iff_ne]
        intro heq
        exact hnd.1 (heq ▸ hkey)
      simp only [broRowAux, List.getD_cons_succ, List.lookup, hne, cond]
      rw [← getD_tail]
      exact ih toks.tail i hlen hnd.2

theorem broParseData_eq (raw tSep bSep : String) :
    broParseData raw tSep bSep =
      (((splitOnS (trimS raw) bSep).filter fun b => trimS b ≠ "").filter
        (fun b => decide (¬ (splitOnS (trimS b) tSep).length < 25))).map
        (fun b => broRow (splitOnS (trimS b) tSep)) := by
  unfold broParseData
  exact filterMap_if_guard _ _ _

/-- C9: for every raw measurement text and separator pair, (i) the rows of
`_parseData` are exactly one per block yielding at least 25 tokens — shorter
blocks are dropped entirely; (ii) every sufficiently long block contributes
its row; (iii) in any row built from a token list, a token at position
`i < 25` that is non-numeric or parses to exactly `-999999` is stored as
`null` under that position's fixed semantic key. -/
theorem broParseData_sentinel_and_strict (raw tSep bSep : String) :
    ((broParseData raw tSep bSep).length =
      (((splitOnS (trimS raw) bSep).filter fun b => trimS b ≠ "").filter
        fun b => decide (25 ≤ (splitOnS (trimS b) tSep).length)).length) ∧
    (∀ b ∈ (splitOnS (trimS raw) bSep).filter fun b => trimS b ≠ "",
      25 ≤ (splitOnS (trimS b) tSep).length →
      broRow (splitOnS (trimS b) tSep) ∈ broParseData raw tSep bSep) ∧
    (∀ toks : List String, ∀ i, i < 25 →
      (parseFloatJS (toks.getD i "") = none ∨
       parseFloatJS (toks.getD i "") = some (-999999)) →
      (broRow toks).lookup ((BRO_COLUMN_ORDER.getD i ("", "", "")).1) = some none) := by
  refine ⟨?_, ?_, ?_⟩
  · rw [broParseData_eq, List.length_map]
    congr 1
    apply List.filter_congr
    intro b _
    rw [decide_eq_decide]
    exact not_lt
  · intro b hb h25
    rw [broParseData_eq]
    exact List.mem_map_of_mem _ (List.mem_filter.mpr ⟨hb, by simpa [Nat.not_lt] using h25⟩)
  · intro toks i hi hsent
    have hnull : broVal (toks.getD i "") = none := by
      unfold broVal
      rcases hsent with h | h
      · rw [h]
      · rw [h]
        simp [BRO_VOID_VALUE]
    have := broRowAux_lookup BRO_COLUMN_ORDER toks i (by simpa using hi) (by decide)
    rw [hnull] at this
    exact this

set_option maxRecDepth 4000 in
/-- Witness for C9 on a concrete values text: a 25-token block with the
sentinel at position 18 (`fs`) yields a row with `fs = null` and is kept,
while the trailing short block is dropped. -/
theorem broParseData_witness :
    ((broRow (splitOnS (trimS
      "1,2,3,4,5,6,7,8,9,10,11,12,13,14,15,16,17,18,-999999,20,21,22,23,24,25") ",")).lookup
        "fs" = some none) ∧
    broRow (splitOnS (trimS
      "1,2,3,4,5,6,7,8,9,10,11,12,13,14,15,16,17,18,-999999,20,21,22,23,24,25") ",") ∈
      broParseData
        "1,2,3,4,5,6,7,8,9,10,11,12,13,14,15,16,17,18,-999999,20,21,22,23,24,25;short"
        "," ";" := by
  constructor
  · exact (broParseData_sentinel_and_strict
      "1,2,3,4,5,6,7,8,9,10,11,12,13,14,15,16,17,18,-999999,20,21,22,23,24,25;short"
      "," ";").2.2
      (splitOnS (trimS
        "1,2,3,4,5,6,7,8,9,10,11,12,13,14,15,16,17,18,-999999,20,21,22,23,24,25") ",")
      18 (by norm_num)
      (Or.inr (by decide))
  · exact (broParseData_sentinel_and_strict
      "1,2,3,4,5,6,7,8,9,10,11,12,13,14,15,16,17,18,-999999,20,21,22,23,24,25;short"
      "," ";").2.1
      "1,2,3,4,5,6,7,8,9,10,11,12,13,14,15,16,17,18,-999999,20,21,22,23,24,25"
      (by decide)
      (by decide)

/-! ## C6 — Parser A fails iff the header terminator is absent -/

theorem gefScan_not_found (lines : List String) :
    ∀ st, (gefScan st lines).2.1 = false ↔ ∀ l ∈ lines, isEOH l = false := by
  induction lines with
  | nil => intro st; simp [gefScan]
  | cons l ls ih =>
    intro st
    by_cases h : isEOH l = true
    · simp only [gefScan, if_pos h]
      constructor
      · intro hfalse; exact absurd hfalse (by simp)
      · intro hall
        exact absurd (hall l (List.mem_cons_self _ _)) (by simp [h])
    · have h' : isEOH l = false := by simpa using h
      simp only [gefScan, if_neg h]
      rw [ih (gefHeaderStep st l)]
      constructor
      · intro hall x hx
        rcases List.mem_cons.mp hx with rfl | hx'
        · exact h'
        · exact hall x hx'
      · intro hall x hx
        exact hall x (List.mem_cons_of_mem _ hx)

theorem gefScan_split (pre : List String) :
    ∀ (term : String) (post : List String) st,
      (∀ l ∈ pre, isEOH l = false) → isEOH term = true →
      gefScan st (pre ++ term :: post) = (pre.foldl gefHeaderStep st, true, post) := by
  induction pre with
  | nil =>
    intro term post st _ hterm
    simp [gefScan, hterm]
  | cons l ls ih =>
    intro term post st hpre hterm
    have hl : isEOH l = false := hpre l (List.mem_cons_self _ _)
    simp only [List.cons_append, gefScan, hl, Bool.false_eq_true, if_false, List.foldl_cons]
    exact ih term post (gefHeaderStep st l) (fun x hx => hpre x (List.mem_cons_of_mem _ hx))
      hterm

theorem gefParseData_all_skip (lines : List String) (sep : GefSep) (cm : List Column)
    (h : ∀ l ∈ lines, gefSkipLine l = true) : gefParseData lines sep cm = [] := by
  induction lines with
  | nil => rfl
  | cons l ls ih =>
    simp only [gefParseData, List.filterMap_cons, h l (List.mem_cons_self _ _), if_true]
    exact ih fun x hx => h x (List.mem_cons_of_mem _ hx)

theorem gefComputeDerived_nil (cm : List Column) : (gefComputeDerived [] cm).1 = [] := by
  unfold gefComputeDerived
  dsimp only
  split_ifs <;> simp

/-- C6: `GefParser.parse` fails with its format error exactly when no line
of the input is `#EOH` or `#EOH=` after trimming; and when the lines split
as non-terminator headers, a terminator, and trailing lines that are all
blank or comments (so no data rows follow), parsing succeeds with an empty
data sequence and the column map built from the scanned header (including
any `computed` descriptors the derivation step appends — with zero data
rows there are no rows to enrich). -/
theorem gefParse_error_iff_and_headeronly (text : String) :
    ((∃ e, gefParse text = Except.error e) ↔ ∀ l ∈ gefLines text, isEOH l = false) ∧
    (∀ pre term post, gefLines text = pre ++ term :: post →
      (∀ l ∈ pre, isEOH l = false) → isEOH term = true →
      (∀ l ∈ post, gefSkipLine l = true) →
      ∃ r, gefParse text = Except.ok r ∧ r.data = [] ∧
        r.columns = (gefComputeDerived []
          (gefBuildColumnMap (pre.foldl gefHeaderStep (emptyGefHeader, [])).2
            (pre.foldl gefHeaderStep (emptyGefHeader, [])).1)).2) := by
  constructor
  · rcases hscan : gefScan (emptyGefHeader, []) (gefLines text) with ⟨⟨hdr, cols⟩, found, rest⟩
    have hiff := gefScan_not_found (gefLines text) (emptyGefHeader, [])
    rw [hscan] at hiff
    cases found with
    | false =>
      simp only at hiff
      rw [← hiff]
      unfold gefParse
      rw [hscan]
      simp
    | true =>
      simp only at hiff
      constructor
      · intro ⟨e, he⟩
        unfold gefParse at he
        rw [hscan] at he
        simp at he
      · intro hall
        exact absurd (hiff.mpr hall) (by simp)
  · intro pre term post hsplit hpre hterm hpost
    have hscan : gefScan (emptyGefHeader, []) (gefLines text)
        = (pre.foldl gefHeaderStep (emptyGefHeader, []), true, post) := by
      rw [hsplit]
      exact gefScan_split pre term post _ hpre hterm
    set st := pre.foldl gefHeaderStep (emptyGefHeader, []) with hst
    refine ⟨⟨gefExtractMetadata st.1,
      (gefComputeDerived [] (gefBuildColumnMap st.2 st.1)).2, []⟩, ?_, rfl, rfl⟩
    unfold gefParse
    rw [hscan]
    have hdata : gefParseData post (gefDetectSeparator st.1) (gefBuildColumnMap st.2 st.1)
        = [] := gefParseData_all_skip post _ _ hpost
    simp only [hdata]
    have hderiv := gefComputeDerived_nil (gefBuildColumnMap st.2 st.1)
    rcases hd : gefComputeDerived [] (gefBuildColumnMap st.2 st.1) with ⟨ddata, dcols⟩
    rw [hd] at hderiv
    simp only at hderiv
    subst hderiv
    simp [hd]

set_option maxRecDepth 4000 in
/-- Witness for C6 on a concrete header-only file: one `COLUMNINFO` line,
the terminator, and a trailing comment line. -/
theorem gefParse_headeronly_witness :
    ∃ r, gefParse "#COLUMNINFO= 1, MPa, conus, 2\n#EOH\n# done" = Except.ok r ∧
      r.data = [] ∧
      r.columns = (gefComputeDerived []
        (gefBuildColumnMap
          (["#COLUMNINFO= 1, MPa, conus, 2"].foldl gefHeaderStep (emptyGefHeader, [])).2
          (["#COLUMNINFO= 1, MPa, conus, 2"].foldl gefHeaderStep (emptyGefHeader, [])).1)).2 :=
  (gefParse_error_iff_and_headeronly "#COLUMNINFO= 1, MPa, conus, 2\n#EOH\n# done").2
    ["#COLUMNINFO= 1, MPa, conus, 2"] "#EOH" ["# done"]
    (by decide) (by decide) (by decide) (by decide)
